import Mathlib

/-!
Verification development for the signal/noise classification pipeline.

Shallow embedding of the core pipeline of the `signal_noise_ratio` repository:
the heuristic short-circuit and caches of `src/content/analyzer.js`, the
response parsing and server-side heuristic of `src/server/ollama-client.js`,
the `/analyze` route of `src/server/index.js`, the `LLMService` client of
`src/content/debug-panel.js`, and the work scheduler of
`src/content/analysis-queue.js`.

JavaScript numbers are modelled as `Int` (scores, thresholds) and as
unnormalized integer fractions `JsRat` (confidences): the comparisons and
products the code computes are integer cross-multiplications, which the
kernel evaluates; fraction literals mirror the source's literals.  JS
`x || d` defaulting (which treats `0` and `""` as falsy) is modelled
explicitly.  DOM elements are modelled as opaque `Nat` handles.
-/

/-- JS `x || d` for an optional number: `undefined` and `0` give the default. -/
def jsOrInt (v : Option Int) (d : Int) : Int :=
  match v with
  | none => d
  | some x => if x = 0 then d else x

/-- Fraction model of a JS (floating-point) number; denominators are positive
in every value the model builds.  Equality of `JsRat` values is syntactic
(component-wise); value-level comparison is `JsRat.le` / `JsRat.eqv`. -/
structure JsRat where
  num : Int
  den : Int
deriving DecidableEq

/-- Value-level order on fractions (valid for positive denominators). -/
def JsRat.le (a b : JsRat) : Prop := a.num * b.den ≤ b.num * a.den

instance (a b : JsRat) : Decidable (JsRat.le a b) := by unfold JsRat.le; infer_instance

/-- Value-level equality on fractions (valid for positive denominators). -/
def JsRat.eqv (a b : JsRat) : Prop := a.num * b.den = b.num * a.den

instance (a b : JsRat) : Decidable (JsRat.eqv a b) := by unfold JsRat.eqv; infer_instance

/-- Product of two fractions. -/
def JsRat.mul (a b : JsRat) : JsRat := ⟨a.num * b.num, a.den * b.den⟩

/-- JS `x || d` for an optional number: `undefined` and value `0` give the
default. -/
def jsOrRat (v : Option JsRat) (d : JsRat) : JsRat :=
  match v with
  | none => d
  | some x => if x.num = 0 then d else x

/-- JS `x || d` for an optional string: `undefined` and `""` give the default. -/
def jsOrStr (v : Option String) (d : String) : String :=
  match v with
  | none => d
  | some x => if x = "" then d else x

/-- ASCII lower-casing of one character (the texts under study are ASCII;
JS `toLowerCase` coincides on them). -/
def asciiToLower (c : Char) : Char :=
  if 65 ≤ c.toNat ∧ c.toNat ≤ 90 then Char.ofNat (c.toNat + 32) else c

/-- Model of JS `String.prototype.toLowerCase` on ASCII text. -/
def strToLower (s : String) : String := ⟨s.data.map asciiToLower⟩

/-- ASCII whitespace test used by `strTrim`. -/
def isWhitespaceChar (c : Char) : Bool := c == ' ' || c == '\t' || c == '\n' || c == '\r'

/-- Model of JS `String.prototype.trim`. -/
def strTrim (s : String) : String :=
  ⟨((s.data.dropWhile isWhitespaceChar).reverse.dropWhile isWhitespaceChar).reverse⟩

/-- Model of JS `String.prototype.substring(0, n)`. -/
def strTake (s : String) (n : Nat) : String := ⟨s.data.take n⟩

/-- Decimal digit character. -/
def digitChar (n : Nat) : Char := (['0','1','2','3','4','5','6','7','8','9'].getD n '0')

/-- Fueled decimal rendering of a natural number. -/
def natToCharsAux : Nat → Nat → List Char → List Char
  | 0, _, acc => acc
  | fuel + 1, n, acc =>
    if n < 10 then digitChar n :: acc
    else natToCharsAux fuel (n / 10) (digitChar (n % 10) :: acc)

/-- Decimal rendering of a natural number (JS template interpolation). -/
def natToString (n : Nat) : String := ⟨natToCharsAux (n + 1) n []⟩

/-- Char-list version of `String.startsWith`. -/
def charsStartWith : List Char → List Char → Bool
  | [], _ => true
  | _ :: _, [] => false
  | a :: as, b :: bs => a == b && charsStartWith as bs

/-- Char-list substring search: does the second list occur in the first. -/
def charsContain (sub : List Char) : List Char → Bool
  | [] => sub.isEmpty
  | b :: bs => charsStartWith sub (b :: bs) || charsContain sub bs

/-- JS `String.prototype.includes`: substring containment. -/
def strIncludes (s sub : String) : Bool :=
  charsContain sub.data s.data

/-- A classification result as produced by the pipeline
(`score`, `isSignal`, `category`, `reason`, `confidence`).  The bookkeeping
fields `method` / `source` / `latency` that some producers attach are not
modelled: the claims under study either ignore or explicitly except them. -/
structure AnalysisResult where
  score : Int
  isSignal : Bool
  category : String
  reason : String
  confidence : JsRat
deriving DecidableEq

/-- Input of the client-side heuristic filter: the tweet text, the author
handle (empty string when absent, as in the source's `?.` chains), and the
domains of external links. -/
structure TweetData where
  text : String
  authorHandle : String
  linkDomains : List String
deriving DecidableEq

/-- High-confidence signal keywords of `TweetAnalyzer.quickHeuristicFilter`
(`src/content/analyzer.js` lines 158-166). -/
def signalKeywords : List String :=
  ["yc", "y combinator", "ycombinator",
   "claude", "anthropic", "openai", "gpt-4", "llm",
   "shipped", "launched", "built", "deployed",
   "github.com", "arxiv.org",
   "api", "sdk", "framework",
   "seed round", "series a", "funding",
   "open source", "oss"]

/-- High-confidence noise keywords of `TweetAnalyzer.quickHeuristicFilter`
(`src/content/analyzer.js` lines 169-175). -/
def noiseKeywords : List String :=
  ["celebrity", "red carpet", "gossip", "scandal",
   "recipe", "cooking", "baking", "ingredients",
   "skincare", "makeup", "fashion", "outfit",
   "dating", "relationship", "boyfriend", "girlfriend",
   "horoscope", "zodiac", "astrology"]

/-- Known strong-signal account fragments (`src/content/analyzer.js` line 212). -/
def knownTechAccounts : List String := ["sama", "paulg", "elonmusk", "patrickc", "balajis"]

/-- Known noise account fragments (`src/content/analyzer.js` line 213). -/
def knownNoiseAccounts : List String := ["celebgossip", "foodnetwork", "espn"]

/-- Model of `TweetAnalyzer.quickHeuristicFilter` (`src/content/analyzer.js`
lines 153-239).  Returns `none` when no strong marker fires ("let LLM decide"). -/
def quickHeuristicFilter (td : TweetData) : Option AnalysisResult :=
  let text := strToLower td.text
  let author := strToLower td.authorHandle
  let hasStrongSignal := signalKeywords.any (fun k => strIncludes text k)
  let hasCodeBlock := strIncludes text "```" || strIncludes text "function" || strIncludes text "const "
  let hasGithubLink := decide ("github.com" ∈ td.linkDomains)
  let hasArxivLink := decide ("arxiv.org" ∈ td.linkDomains)
  if hasStrongSignal || hasCodeBlock || hasGithubLink || hasArxivLink then
    some ⟨90, true, "high-signal", "Strong tech/startup indicators", ⟨19, 20⟩⟩
  else
    let hasStrongNoise := noiseKeywords.any (fun k => strIncludes text k)
    let isLifestyleContent := strIncludes text "my morning routine" ||
      strIncludes text "life hack" || strIncludes text "hot take"
    if hasStrongNoise || isLifestyleContent then
      some ⟨10, false, "noise", "Lifestyle/entertainment content", ⟨19, 20⟩⟩
    else if knownTechAccounts.any (fun acc => strIncludes author acc) then
      some ⟨85, true, "high-signal", "Known tech leader account", ⟨9, 10⟩⟩
    else if knownNoiseAccounts.any (fun acc => strIncludes author acc) then
      some ⟨5, false, "noise", "Known entertainment account", ⟨9, 10⟩⟩
    else
      none

/-- Model of `OllamaClient.quickHeuristicCheck` (`src/server/ollama-client.js`
lines 317-343), the server-side pre-filter used by batch analysis. -/
def quickHeuristicCheck (text : String) : Option AnalysisResult :=
  let lower := strToLower text
  if strIncludes lower "yc" || strIncludes lower "anthropic" || strIncludes lower "github.com" then
    some ⟨90, true, "high-signal", "Tech indicator", ⟨19, 20⟩⟩
  else if strIncludes lower "celebrity" || strIncludes lower "recipe" || strIncludes lower "skincare" then
    some ⟨10, false, "noise", "Lifestyle content", ⟨19, 20⟩⟩
  else
    none

/-- Abstraction of a raw generative-model reply, as seen by
`OllamaClient.parseAnalysisResponse`.  `json` is the case where the reply
contains a first balanced brace group that `JSON.parse` accepts, carrying
optional `score` / `reason` / `confidence` fields; `fields` is the case where
strict parsing failed and the three per-field regular expressions are tried
individually (a `none` score field means the score regex found nothing). -/
inductive LLMResponse where
  | json (score : Option Int) (reason : Option String) (confidence : Option JsRat)
  | fields (score : Option Nat) (reason : Option String) (confidence : Option JsRat)
deriving DecidableEq

/-- JS `Math.max(0, Math.min(100, x))`. -/
def clampScore (x : Int) : Int := max 0 (min 100 x)

/-- Score bands of `OllamaClient.parseAnalysisResponse`
(`src/server/ollama-client.js` lines 204-213 and 232-241). -/
def categoryFor (score threshold : Int) : String :=
  if 80 ≤ score then "high-signal"
  else if threshold ≤ score then "signal"
  else if 40 ≤ score then "medium"
  else "noise"

/-- Model of `OllamaClient.parseAnalysisResponse` (`src/server/ollama-client.js`
lines 195-263): strict JSON stage, then per-field extraction stage, then the
hard-coded fallback record. -/
def parseAnalysisResponse (r : LLMResponse) (threshold : Int) : AnalysisResult :=
  match r with
  | .json s re c =>
    let score := clampScore (jsOrInt s 50)
    { score := score
      isSignal := decide (threshold ≤ score)
      category := categoryFor score threshold
      reason := jsOrStr re "No reason provided"
      confidence := jsOrRat c ⟨1, 2⟩ }
  | .fields s re c =>
    match s with
    | some n =>
      let score := clampScore n
      { score := score
        isSignal := decide (threshold ≤ score)
        category := categoryFor score threshold
        reason := re.getD "Partial parse"
        confidence := c.getD ⟨1, 2⟩ }
    | none =>
      { score := 50, isSignal := false, category := "medium",
        reason := "Could not parse response", confidence := ⟨0, 1⟩ }

/-- Responses on which one of the two real parse stages succeeds (the strict
JSON stage, or the per-field stage finding a score). -/
def parseStageOk : LLMResponse → Prop
  | .json _ _ _ => True
  | .fields s _ _ => s ≠ none

instance : DecidablePred parseStageOk := fun r => by
  cases r with
  | json s re c => exact isTrue trivial
  | fields s re c => exact (inferInstance : Decidable (s ≠ none))

/-- Threshold stored by `TweetAnalyzer.loadSettings`
(`src/content/analyzer.js` line 56): `stored.threshold || 30`. -/
def loadSettingsThreshold (stored : Option Int) : Int := jsOrInt stored 30

/-- Threshold placed in the request body by `LLMService.analyzeTweet`
(`src/content/debug-panel.js` line 803): `userPreferences.threshold || 30`. -/
def requestBodyThreshold (pref : Option Int) : Int := jsOrInt pref 30

/-- Threshold taken by the `/analyze` route (`src/server/index.js` line 140):
a destructuring default, so only a missing field (not `0`) becomes 30. -/
def serverRouteThreshold (body : Option Int) : Int := body.getD 30

/-- Threshold used by `OllamaClient.analyzeContent`
(`src/server/ollama-client.js` line 143): `userPreferences.threshold || 70`. -/
def analyzeContentThreshold (pref : Option Int) : Int := jsOrInt pref 70

/-- End-to-end threshold of the extension-to-server pipeline: the stored user
setting flows through `loadSettings`, the request body, the `/analyze` route
and `analyzeContent` before reaching `parseAnalysisResponse`. -/
def pipelineThreshold (stored : Option Int) : Int :=
  analyzeContentThreshold (some (serverRouteThreshold (some
    (requestBodyThreshold (some (loadSettingsThreshold stored))))))

/-- Classification computed by the pipeline for a given stored threshold
setting and raw model reply. -/
def pipelineAnalyze (stored : Option Int) (r : LLMResponse) : AnalysisResult :=
  parseAnalysisResponse r (pipelineThreshold stored)

/-- Model of the per-request loop of `LLMService.analyzeTweet`
(`src/content/debug-panel.js` lines 792-865): each element is the outcome of
one fetch attempt (`none` = network error, timeout or non-ok status); the
first successful attempt's body is returned. -/
def requestRetryLoop : List (Option AnalysisResult) → Option AnalysisResult
  | [] => none
  | some r :: _ => some r
  | none :: rest => requestRetryLoop rest

/-- Model of `LLMService.analyzeTweet` (`src/content/debug-panel.js` lines
773-871): when still disconnected after the re-check the result is `null`;
otherwise at most three attempts are made and exhaustion yields `null`. -/
def llmServiceAnalyzeTweet (connectedAfterCheck : Bool)
    (attempts : List (Option AnalysisResult)) : Option AnalysisResult :=
  if connectedAfterCheck then requestRetryLoop (attempts.take 3) else none

/-- Connection-retry state of `LLMService` (`src/content/debug-panel.js`
lines 638-650): defaults `maxRetries = 3`, `retryDelay = 1000`. -/
structure RetryState where
  connected : Bool
  retryAttempts : Nat
  maxRetries : Nat
  retryDelay : Nat
deriving DecidableEq

/-- Outcome of one probe of the `/health` endpoint: `ok` (status ok and
ollama connected), `badStatus` (reachable but not ok), `netError` (fetch
threw: refused, timeout). -/
inductive ProbeOutcome where
  | ok
  | badStatus
  | netError
deriving DecidableEq

/-- Model of `LLMService.scheduleRetry` (`src/content/debug-panel.js` lines
687-701): gives up once `maxRetries` attempts are reached, otherwise schedules
a probe after `retryDelay * 2 ^ retryAttempts` ms. -/
def scheduleRetry (s : RetryState) : Option Nat :=
  if s.maxRetries ≤ s.retryAttempts then none
  else some (s.retryDelay * 2 ^ s.retryAttempts)

/-- Model of `LLMService.checkConnection` (`src/content/debug-panel.js` lines
703-756).  Returns the new state and the delay of the reconnection probe
scheduled by this call, if any.  A successful probe resets `retryAttempts`;
a thrown fetch schedules a retry only for non-health-check calls. -/
def checkConnection (s : RetryState) (outcome : ProbeOutcome)
    (isHealthCheck : Bool) : RetryState × Option Nat :=
  match outcome with
  | .ok => ({ s with connected := true, retryAttempts := 0 }, none)
  | .badStatus => ({ s with connected := false }, none)
  | .netError =>
    let s' := { s with connected := false }
    (s', if isHealthCheck then none else scheduleRetry s')

/-- Firing of the timer set by `scheduleRetry` (`src/content/debug-panel.js`
lines 697-700): the attempt counter is incremented, then the probe runs. -/
def retryTimerFire (s : RetryState) (outcome : ProbeOutcome) : RetryState × Option Nat :=
  checkConnection { s with retryAttempts := s.retryAttempts + 1 } outcome false

/-- State of the work scheduler `AnalysisQueue`
(`src/content/analysis-queue.js` lines 1-11).  Tweet elements are opaque
`Nat` handles; `processedTweets` / `pendingTweets` model the `WeakSet` /
`WeakMap` key sets; queues store handles in submission order (each queued
entry's `priority` field always matches the lane it sits in, so lanes alone
determine behaviour).  Defaults: `maxQueueSize = 100`, `batchSize = 5`. -/
structure AnalysisQueue where
  highPriorityQueue : List Nat
  lowPriorityQueue : List Nat
  processedTweets : List Nat
  pendingTweets : List Nat
  maxQueueSize : Nat
  batchSize : Nat
deriving DecidableEq

/-- Fresh scheduler with the constructor defaults. -/
def emptyQueue : AnalysisQueue := ⟨[], [], [], [], 100, 5⟩

/-- Model of `AnalysisQueue.trimLowPriorityQueue`
(`src/content/analysis-queue.js` lines 37-42): when the Low lane exceeds
`maxQueueSize` the oldest excess entries are spliced off the front and
deleted from the pending map.  Also returns the removed handles. -/
def trimLowPriorityQueue (q : AnalysisQueue) : AnalysisQueue × List Nat :=
  if q.maxQueueSize < q.lowPriorityQueue.length then
    let k := q.lowPriorityQueue.length - q.maxQueueSize
    let removed := q.lowPriorityQueue.take k
    ({ q with
        lowPriorityQueue := q.lowPriorityQueue.drop k,
        pendingTweets := q.pendingTweets.filter (fun x => decide (x ∉ removed)) },
     removed)
  else (q, [])

/-- Model of `AnalysisQueue.addTweet` (`src/content/analysis-queue.js` lines
13-35): a no-op when the handle is already processed or pending; otherwise
the handle becomes pending and is pushed on the chosen lane, the Low lane
being trimmed after the push.  Also returns the handles the trim dropped. -/
def addTweet (q : AnalysisQueue) (id : Nat) (high : Bool) : AnalysisQueue × List Nat :=
  if id ∈ q.processedTweets ∨ id ∈ q.pendingTweets then (q, [])
  else if high then
    ({ q with pendingTweets := q.pendingTweets ++ [id],
              highPriorityQueue := q.highPriorityQueue ++ [id] }, [])
  else
    trimLowPriorityQueue { q with pendingTweets := q.pendingTweets ++ [id],
                                  lowPriorityQueue := q.lowPriorityQueue ++ [id] }

/-- Model of `AnalysisQueue.updatePriority(el, 'high')`
(`src/content/analysis-queue.js` lines 108-121): a pending handle found in
the Low lane is spliced out and pushed on the High lane; otherwise no-op. -/
def updatePriority (q : AnalysisQueue) (id : Nat) : AnalysisQueue :=
  if id ∈ q.pendingTweets ∧ id ∈ q.lowPriorityQueue then
    { q with
        lowPriorityQueue := q.lowPriorityQueue.erase id,
        highPriorityQueue := q.highPriorityQueue ++ [id] }
  else q

/-- Model of `AnalysisQueue.getNextBatch` (`src/content/analysis-queue.js`
lines 94-106): shift up to `batchSize` handles from the High lane, then fill
the remainder from the Low lane. -/
def getNextBatch (q : AnalysisQueue) : List Nat × AnalysisQueue :=
  let fromHigh := q.highPriorityQueue.take q.batchSize
  let rem := q.batchSize - fromHigh.length
  let fromLow := q.lowPriorityQueue.take rem
  (fromHigh ++ fromLow,
   { q with
      highPriorityQueue := q.highPriorityQueue.drop q.batchSize,
      lowPriorityQueue := q.lowPriorityQueue.drop rem })

/-- Both lanes in order, High first. -/
def qTotal (q : AnalysisQueue) : List Nat :=
  q.highPriorityQueue ++ q.lowPriorityQueue

/-- Model of the per-item loop of `AnalysisQueue.processNextBatch`
(`src/content/analysis-queue.js` lines 71-85).  `classify id = true` models
`analyzeTweetElement` resolving, `false` models it throwing: on success the
handle is added to the processed set and deleted from pending, on a caught
error it is only deleted from pending; the loop always continues.  The second
component is the analyzer call log (one call per batch item). -/
def processBatch (q : AnalysisQueue) (batch : List Nat) (classify : Nat → Bool) :
    AnalysisQueue × List Nat :=
  match batch with
  | [] => (q, [])
  | t :: rest =>
    let q' :=
      if classify t then
        { q with
            processedTweets := q.processedTweets ++ [t],
            pendingTweets := q.pendingTweets.filter (fun x => decide (x ≠ t)) }
      else
        { q with pendingTweets := q.pendingTweets.filter (fun x => decide (x ≠ t)) }
    let r := processBatch q' rest classify
    (r.1, t :: r.2)

/-- One run of `AnalysisQueue.processNextBatch`
(`src/content/analysis-queue.js` lines 59-92): pull one batch and process it
sequentially.  Returns the new state and the analyzer call log. -/
def processNextBatch (q : AnalysisQueue) (classify : Nat → Bool) :
    AnalysisQueue × List Nat :=
  processBatch (getNextBatch q).2 (getNextBatch q).1 classify

/-- Repeated `processNextBatch` runs until both lanes are empty (the `finally`
block of `processNextBatch` reschedules while a lane is non-empty), with
explicit fuel for termination. -/
def drainAll : Nat → AnalysisQueue → (Nat → Bool) → AnalysisQueue × List Nat
  | 0, q, _ => (q, [])
  | fuel + 1, q, classify =>
    if (getNextBatch q).1.isEmpty then (q, [])
    else
      let r := processBatch (getNextBatch q).2 (getNextBatch q).1 classify
      let r' := drainAll fuel r.1 classify
      (r'.1, r.2 ++ r'.2)

/-- External events driving the scheduler: a submission (discovery callback),
an escalation (viewport observer calling `updatePriority`), or one batch
drain. -/
inductive QueueOp where
  | submit (id : Nat) (high : Bool)
  | escalate (id : Nat)
  | drain
deriving DecidableEq

/-- One scheduler event.  Returns the new state, the analyzer calls made and
the handles dropped by Low-lane overflow during the event. -/
def stepOp (classify : Nat → Bool) (q : AnalysisQueue) :
    QueueOp → AnalysisQueue × List Nat × List Nat
  | .submit id high =>
    let r := addTweet q id high
    (r.1, [], r.2)
  | .escalate id => (updatePriority q id, [], [])
  | .drain =>
    let r := processNextBatch q classify
    (r.1, r.2, [])

/-- Run a sequence of scheduler events, accumulating the analyzer call log
and the overflow-drop log. -/
def runOps (classify : Nat → Bool) : AnalysisQueue → List QueueOp → AnalysisQueue × List Nat × List Nat
  | q, [] => (q, [], [])
  | q, op :: rest =>
    let r := stepOp classify q op
    let r' := runOps classify r.1 rest
    (r'.1, r.2.1 ++ r'.2.1, r.2.2 ++ r'.2.2)

/-- Event predicate: is this a submission of the given handle. -/
def isSubmitOf (id : Nat) (op : QueueOp) : Bool :=
  match op with
  | .submit j _ => decide (j = id)
  | _ => false

/-- Number of submissions of a given handle in an event sequence. -/
def countSubmits (id : Nat) (ops : List QueueOp) : Nat :=
  ops.countP (isSubmitOf id)

/-- A handle unknown to the scheduler: not pending, not processed, in no lane. -/
def freshId (q : AnalysisQueue) (id : Nat) : Prop :=
  id ∉ q.pendingTweets ∧ id ∉ q.processedTweets ∧ (qTotal q).count id = 0

/-- A cache entry of `TweetAnalyzer`: a result plus its write timestamp
(`src/content/analyzer.js` lines 413-421 and 433-437). -/
structure CacheEntry where
  data : AnalysisResult
  timestamp : Nat
deriving DecidableEq

/-- JS `Map.prototype.set` on an association list (overwriting the key). -/
def mapSet (m : List (String × CacheEntry)) (k : String) (v : CacheEntry) :
    List (String × CacheEntry) :=
  (k, v) :: m.filter (fun p => decide (p.1 ≠ k))

/-- JS `Map.prototype.get` on an association list. -/
def mapGet (m : List (String × CacheEntry)) (k : String) : Option CacheEntry :=
  (m.find? (fun p => decide (p.1 = k))).map (·.2)

/-- Key of the entry with the smallest timestamp, earliest-written first on
ties (the source sorts the entries by timestamp and deletes the first). -/
def oldestKey (m : List (String × CacheEntry)) : Option String :=
  (m.foldl (fun acc p =>
    match acc with
    | none => some p
    | some b => if p.2.timestamp < b.2.timestamp then some p else some b) none).map (·.1)

/-- Delete the oldest entry (`src/content/analyzer.js` lines 425-429, 440-444). -/
def evictOldest (m : List (String × CacheEntry)) : List (String × CacheEntry) :=
  match oldestKey m with
  | none => m
  | some k => m.filter (fun p => decide (p.1 ≠ k))

/-- Cache state of `TweetAnalyzer` (`src/content/analyzer.js` lines 19-21):
the author (source-identity) cache, the pattern (content) cache, and the
one-hour TTL. -/
structure TweetAnalyzerCaches where
  authorCache : List (String × CacheEntry)
  patternCache : List (String × CacheEntry)
  cacheTimeout : Nat
deriving DecidableEq

/-- Model of `TweetAnalyzer.hashContent` (`src/content/analyzer.js` lines
404-408): first 100 characters of the lower-cased trimmed text, qualified by
their length. -/
def hashContent (text : String) : String :=
  let normalized := strTake (strTrim (strToLower text)) 100
  natToString normalized.data.length ++ "_" ++ normalized

/-- Model of `TweetAnalyzer.cacheAnalysisResult` (`src/content/analyzer.js`
lines 410-445).  Under the author key (when a handle is present and
`confidence ≥ 0.8`) a modified copy is stored: the reason is prefixed with
`"Cached from: "` and the confidence is multiplied by 0.9.  Under the content
key the result itself is stored.  Each cache evicts its oldest entry when its
hard cap (500 / 1000) is exceeded. -/
def cacheAuthorStage (a : TweetAnalyzerCaches) (authorHandle : String)
    (r : AnalysisResult) (now : Nat) : TweetAnalyzerCaches :=
  if authorHandle ≠ "" ∧ JsRat.le ⟨8, 10⟩ r.confidence then
    let m := mapSet a.authorCache authorHandle
      ⟨{ score := r.score, isSignal := r.isSignal, category := r.category,
         reason := "Cached from: " ++ r.reason,
         confidence := JsRat.mul r.confidence ⟨9, 10⟩ }, now⟩
    { a with authorCache := if 500 < m.length then evictOldest m else m }
  else a

/-- Content-key stage and composition (`src/content/analyzer.js` lines
432-444 after the author stage above). -/
def cacheAnalysisResult (a : TweetAnalyzerCaches) (authorHandle text : String)
    (r : AnalysisResult) (now : Nat) : TweetAnalyzerCaches :=
  let a1 := cacheAuthorStage a authorHandle r now
  let m := mapSet a1.patternCache (hashContent text) ⟨r, now⟩
  { a1 with patternCache := if 1000 < m.length then evictOldest m else m }

/-- Model of `TweetAnalyzer.getCachedAuthorScore` (`src/content/analyzer.js`
lines 396-402): a hit younger than the TTL returns the stored data. -/
def getCachedAuthorScore (a : TweetAnalyzerCaches) (handle : String) (now : Nat) :
    Option AnalysisResult :=
  match mapGet a.authorCache handle with
  | some c => if now - c.timestamp < a.cacheTimeout then some c.data else none
  | none => none

/-- Model of the pattern-cache lookup inlined in `TweetAnalyzer.analyzeTweet`
(`src/content/analyzer.js` lines 91-101). -/
def getCachedPatternScore (a : TweetAnalyzerCaches) (text : String) (now : Nat) :
    Option AnalysisResult :=
  match mapGet a.patternCache (hashContent text) with
  | some c => if now - c.timestamp < a.cacheTimeout then some c.data else none
  | none => none

/-- Concrete strong-signal heuristic verdict (score 90 branch). -/
def sampleSignalResult : AnalysisResult :=
  ⟨90, true, "high-signal", "Strong tech/startup indicators", ⟨19, 20⟩⟩

/-- Fresh analyzer caches with the one-hour default TTL. -/
def emptyCaches : TweetAnalyzerCaches := ⟨[], [], 3600000⟩

/-- Classifier that throws exactly on handle 0 (models a per-item error). -/
def failFirstClassify : Nat → Bool := fun i => decide (i ≠ 0)

/-- Scheduler holding handles 0 and 1 in the Low lane. -/
def twoItemQueue : AnalysisQueue := (addTweet (addTweet emptyQueue 0 false).1 1 false).1

/-- State after draining `twoItemQueue` once with the failing classifier. -/
def afterFailRun : AnalysisQueue := (processNextBatch twoItemQueue failFirstClassify).1

/-- Overflow scenario events: 101 Low submissions into the default scheduler
(`maxQueueSize = 100`), then 20 batch drains (100 items / batch size 5). -/
def overflowOps : List QueueOp :=
  (List.range 101).map (fun i => QueueOp.submit i false) ++ List.replicate 20 QueueOp.drain

/-- Scheduler whose lanes/pending are a single Low-lane list (the shape
reached by submitting only Low items and never draining). -/
def lowOnlyQueue (M B : Nat) (l : List Nat) : AnalysisQueue := ⟨[], l, [], l, M, B⟩

/-- Every verdict of the client heuristic is one of its four literal records. -/
theorem quickHeuristicFilter_shape (td : TweetData) (r : AnalysisResult)
    (h : quickHeuristicFilter td = some r) :
    r = ⟨90, true, "high-signal", "Strong tech/startup indicators", ⟨19, 20⟩⟩ ∨
    r = ⟨10, false, "noise", "Lifestyle/entertainment content", ⟨19, 20⟩⟩ ∨
    r = ⟨85, true, "high-signal", "Known tech leader account", ⟨9, 10⟩⟩ ∨
    r = ⟨5, false, "noise", "Known entertainment account", ⟨9, 10⟩⟩ := by
  unfold quickHeuristicFilter at h
  dsimp only at h
  split_ifs at h <;> simp only [Option.some.injEq] at h <;> subst h <;> simp

/-- Every verdict of the server heuristic is one of its two literal records. -/
theorem quickHeuristicCheck_shape (s : String) (r : AnalysisResult)
    (h : quickHeuristicCheck s = some r) :
    r = ⟨90, true, "high-signal", "Tech indicator", ⟨19, 20⟩⟩ ∨
    r = ⟨10, false, "noise", "Lifestyle content", ⟨19, 20⟩⟩ := by
  unfold quickHeuristicCheck at h
  dsimp only at h
  split_ifs at h <;> simp only [Option.some.injEq] at h <;> subst h <;> simp

/-- C10: whenever either heuristic filter returns a verdict, the verdict is
extreme — score 85 or 90 with `isSignal` true and category `high-signal`, or
score 5 or 10 with `isSignal` false and category `noise` — with confidence
0.9 or 0.95; no mid-range score and no `medium`/`signal` category occurs. -/
theorem claim10_heuristic_extreme :
    (∀ (td : TweetData) (r : AnalysisResult), quickHeuristicFilter td = some r →
      (((r.score = 85 ∨ r.score = 90) ∧ r.isSignal = true ∧ r.category = "high-signal") ∨
       ((r.score = 5 ∨ r.score = 10) ∧ r.isSignal = false ∧ r.category = "noise")) ∧
      (r.confidence = ⟨9, 10⟩ ∨ r.confidence = ⟨19, 20⟩)) ∧
    (∀ (s : String) (r : AnalysisResult), quickHeuristicCheck s = some r →
      (((r.score = 85 ∨ r.score = 90) ∧ r.isSignal = true ∧ r.category = "high-signal") ∨
       ((r.score = 5 ∨ r.score = 10) ∧ r.isSignal = false ∧ r.category = "noise")) ∧
      (r.confidence = ⟨9, 10⟩ ∨ r.confidence = ⟨19, 20⟩)) := by
  constructor
  · intro td r h
    rcases quickHeuristicFilter_shape td r h with rfl | rfl | rfl | rfl <;> refine ⟨?_, ?_⟩ <;> simp
  · intro s r h
    rcases quickHeuristicCheck_shape s r h with rfl | rfl <;> refine ⟨?_, ?_⟩ <;> simp

/-- Witness for C10: the text "yc demo day" triggers the strong-signal branch
and the verdict is extreme as stated. -/
theorem claim10_witness :
    quickHeuristicFilter ⟨"yc demo day", "", []⟩ = some sampleSignalResult ∧
    ((((sampleSignalResult.score = 85 ∨ sampleSignalResult.score = 90) ∧
        sampleSignalResult.isSignal = true ∧ sampleSignalResult.category = "high-signal") ∨
      ((sampleSignalResult.score = 5 ∨ sampleSignalResult.score = 10) ∧
        sampleSignalResult.isSignal = false ∧ sampleSignalResult.category = "noise")) ∧
     (sampleSignalResult.confidence = ⟨9, 10⟩ ∨ sampleSignalResult.confidence = ⟨19, 20⟩)) :=
  ⟨by decide, claim10_heuristic_extreme.1 ⟨"yc demo day", "", []⟩ sampleSignalResult (by decide)⟩

/-- Consistency of a result with a threshold: `isSignal` holds exactly when
the score reaches the threshold. -/
def isSignalConsistent (r : AnalysisResult) (threshold : Int) : Prop :=
  r.isSignal = decide (threshold ≤ r.score)

instance (r : AnalysisResult) (t : Int) : Decidable (isSignalConsistent r t) := by
  unfold isSignalConsistent; infer_instance

/-- Counterexample to C2: with the threshold configured to 95 (inside the
documented 0-100 range), the heuristic short-circuit still returns its
hard-coded verdict `isSignal = true` with score 90, so `isSignal` is not
`score ≥ threshold` for results of the heuristic source. -/
theorem claim2_counterexample :
    quickHeuristicFilter ⟨"yc batch announcement", "", []⟩ = some sampleSignalResult ∧
    sampleSignalResult.isSignal = true ∧
    sampleSignalResult.score = 90 ∧
    ¬ ((95 : Int) ≤ sampleSignalResult.score) ∧
    ¬ isSignalConsistent sampleSignalResult 95 := by
  refine ⟨by decide, by decide, by decide, by decide, ?_⟩
  intro h
  exact absurd h (by decide)

/-- C2 (amended): `isSignal ↔ score ≥ threshold` holds for every result built
by the two successful parse stages of the remote-inference path, for any
threshold; heuristic verdicts hard-code `isSignal` (true with score 85/90,
false with score 5/10) and satisfy the equivalence only when the configured
threshold lies in (10, 85] — which includes the default 30; the
unparseable-response fallback hard-codes `isSignal = false` with score 50
regardless of the threshold. -/
theorem claim2_isSignal_threshold :
    (∀ (r : LLMResponse) (t : Int), parseStageOk r →
      isSignalConsistent (parseAnalysisResponse r t) t) ∧
    (∀ (td : TweetData) (r : AnalysisResult) (t : Int), 10 < t → t ≤ 85 →
      quickHeuristicFilter td = some r → isSignalConsistent r t) ∧
    (∀ (s : String) (r : AnalysisResult) (t : Int), 10 < t → t ≤ 85 →
      quickHeuristicCheck s = some r → isSignalConsistent r t) ∧
    (∀ t : Int, (parseAnalysisResponse (.fields none none none) t).isSignal = false) := by
  refine ⟨?_, ?_, ?_, ?_⟩
  · intro r t hok
    cases r with
    | json s re c => rfl
    | fields s re c =>
      cases s with
      | some n => rfl
      | none => exact absurd rfl hok
  · intro td r t h1 h2 h
    rcases quickHeuristicFilter_shape td r h with rfl | rfl | rfl | rfl <;>
      simp [isSignalConsistent] <;> omega
  · intro s r t h1 h2 h
    rcases quickHeuristicCheck_shape s r h with rfl | rfl <;>
      simp [isSignalConsistent] <;> omega
  · intro t
    rfl

/-- Witness for C2 (amended): a parsed score of 60 against the default
threshold 30 yields `isSignal = true`, and the heuristic verdict for a "yc"
text is consistent with threshold 30. -/
theorem claim2_witness :
    isSignalConsistent (parseAnalysisResponse (.json (some 60) none none) 30) 30 ∧
    isSignalConsistent sampleSignalResult 30 :=
  ⟨claim2_isSignal_threshold.1 (.json (some 60) none none) 30 trivial,
   claim2_isSignal_threshold.2.1 ⟨"yc batch announcement", "", []⟩ sampleSignalResult 30
     (by decide) (by decide) (by decide)⟩

/-- C9: when the user has not configured a threshold, every stage of the
pipeline (client request body, `/analyze` route, `analyzeContent`) settles on
threshold 30, and that is the threshold `parseAnalysisResponse` derives
`isSignal` and `category` from; a configured threshold in 1-100 flows through
unchanged (the spec's configuration range is 0-100; a configured 0 is
indistinguishable from "unset" to the JS `||` defaulting). -/
theorem claim9_default_threshold :
    pipelineThreshold none = 30 ∧
    (∀ r : LLMResponse, pipelineAnalyze none r = parseAnalysisResponse r 30) ∧
    (∀ t : Int, 1 ≤ t → t ≤ 100 → pipelineThreshold (some t) = t) := by
  refine ⟨rfl, fun r => rfl, ?_⟩
  intro t h1 _
  have h0 : ¬ t = 0 := by omega
  simp [pipelineThreshold, loadSettingsThreshold, requestBodyThreshold,
    serverRouteThreshold, analyzeContentThreshold, jsOrInt, h0]

/-- Witness for C9: a configured threshold of 50 is the threshold in force. -/
theorem claim9_witness : pipelineThreshold (some 50) = 50 ∧ pipelineThreshold none = 30 :=
  ⟨claim9_default_threshold.2.2 50 (by decide) (by decide), claim9_default_threshold.1⟩

/-- C1 (divergence exhibit): the two genuine unavailability paths of
`LLMService.analyzeTweet` do return `null` — still disconnected after the
re-check, and all three request attempts failing — but a reply that defeats
both parse stages is not surfaced as unavailable: `parseAnalysisResponse`
manufactures the default record (score 50, category `medium`, confidence 0),
the `/analyze` route returns it with HTTP 200, and the caller receives it as
a classification. -/
theorem claim1_unavailability :
    (∀ attempts, llmServiceAnalyzeTweet false attempts = none) ∧
    llmServiceAnalyzeTweet true [none, none, none] = none ∧
    (∀ t : Int, parseAnalysisResponse (.fields none none none) t =
      ⟨50, false, "medium", "Could not parse response", ⟨0, 1⟩⟩) ∧
    (∀ t : Int, llmServiceAnalyzeTweet true
        [some (parseAnalysisResponse (.fields none none none) t)] =
      some ⟨50, false, "medium", "Could not parse response", ⟨0, 1⟩⟩) :=
  ⟨fun _ => rfl, rfl, fun _ => rfl, fun _ => rfl⟩

/-- C8: while disconnected, a failed (thrown) probe schedules the next probe
after double the previous delay; every scheduled delay is bounded by
`retryDelay * 2 ^ (maxRetries - 1)`; once `maxRetries` attempts are reached a
failed probe schedules nothing (an external `checkConnection` call is then
the only way a probe happens); a successful probe resets the attempt counter
to zero and marks the client connected. -/
theorem claim8_backoff :
    (∀ (s : RetryState) (d : Nat), s.retryAttempts + 1 < s.maxRetries →
      (checkConnection s .netError false).2 = some d →
      (retryTimerFire (checkConnection s .netError false).1 .netError).2 = some (2 * d)) ∧
    (∀ (s : RetryState) (d : Nat), scheduleRetry s = some d →
      d ≤ s.retryDelay * 2 ^ (s.maxRetries - 1)) ∧
    (∀ s : RetryState, s.maxRetries ≤ s.retryAttempts →
      (checkConnection s .netError false).2 = none) ∧
    (∀ (s : RetryState) (hc : Bool),
      (checkConnection s .ok hc).1.retryAttempts = 0 ∧
      (checkConnection s .ok hc).1.connected = true) := by
  refine ⟨?_, ?_, ?_, fun s hc => ⟨rfl, rfl⟩⟩
  · intro s d hlt h
    have hb : ¬ s.maxRetries ≤ s.retryAttempts := by omega
    have hb1 : ¬ s.maxRetries ≤ s.retryAttempts + 1 := by omega
    simp [checkConnection, retryTimerFire, scheduleRetry, hb, hb1] at h ⊢
    rw [← h]
    ring
  · intro s d h
    simp only [scheduleRetry] at h
    split at h
    · exact absurd h (by simp)
    · simp only [Option.some.injEq] at h
      subst h
      have hlt : s.retryAttempts < s.maxRetries := by omega
      have : (2 : Nat) ^ s.retryAttempts ≤ 2 ^ (s.maxRetries - 1) :=
        Nat.pow_le_pow_right (by omega) (by omega)
      exact Nat.mul_le_mul_left _ this
  · intro s h
    simp [checkConnection, scheduleRetry, h]

/-- Witness for C8: from the initial state (attempt 0, `maxRetries = 3`,
base delay 1000), a failed probe schedules a retry after 1000 ms and the next
failure doubles it to 2000 ms; the delay never exceeds 4000 ms; at attempt 3
nothing is scheduled; a success resets the counter. -/
theorem claim8_witness :
    (retryTimerFire (checkConnection ⟨false, 0, 3, 1000⟩ .netError false).1 .netError).2 =
      some 2000 ∧
    (1000 : Nat) ≤ 1000 * 2 ^ (3 - 1) ∧
    (checkConnection ⟨false, 3, 3, 1000⟩ .netError false).2 = none ∧
    (checkConnection ⟨false, 2, 3, 1000⟩ .ok false).1.retryAttempts = 0 :=
  ⟨claim8_backoff.1 ⟨false, 0, 3, 1000⟩ 1000 (by decide) (by decide),
   claim8_backoff.2.1 ⟨false, 0, 3, 1000⟩ 1000 (by decide),
   claim8_backoff.2.2.1 ⟨false, 3, 3, 1000⟩ (by decide),
   (claim8_backoff.2.2.2 ⟨false, 2, 3, 1000⟩ false).1⟩

/-- Reading back the key just written returns the value just written. -/
theorem mapGet_set (m : List (String × CacheEntry)) (k : String) (v : CacheEntry) :
    mapGet (mapSet m k v) k = some v := by
  unfold mapGet mapSet
  rw [List.find?_cons_of_pos _ (by simp)]
  rfl

/-- The author stage leaves the pattern cache and TTL unchanged. -/
theorem cacheAuthorStage_pattern (a : TweetAnalyzerCaches) (h : String)
    (r : AnalysisResult) (now : Nat) :
    (cacheAuthorStage a h r now).patternCache = a.patternCache ∧
    (cacheAuthorStage a h r now).cacheTimeout = a.cacheTimeout := by
  unfold cacheAuthorStage
  split <;> exact ⟨rfl, rfl⟩

/-- Counterexample to C7: a round trip through the source-identity
(author-key) cache does not return the original result — the stored copy has
its reason prefixed with "Cached from: " and its confidence multiplied by
0.9, so reason and confidence differ from the original (0.855 versus 0.95). -/
theorem claim7_counterexample :
    getCachedAuthorScore
      (cacheAnalysisResult emptyCaches "@sama" "great analysis thread" sampleSignalResult 0)
      "@sama" 0 =
      some ⟨90, true, "high-signal", "Cached from: Strong tech/startup indicators", ⟨171, 200⟩⟩ ∧
    "Cached from: Strong tech/startup indicators" ≠ sampleSignalResult.reason ∧
    ¬ JsRat.eqv ⟨171, 200⟩ sampleSignalResult.confidence := by
  refine ⟨by decide, by decide, ?_⟩
  intro h
  exact absurd h (by decide)

/-- C7 (amended): writing a result and immediately reading it back by the
content fingerprint yields the original in all fields; reading it back by the
source-identity fingerprint yields the original's score, isSignal and
category, but with the reason prefixed by "Cached from: " and the confidence
multiplied by 0.9.  (Hypotheses: caches below their hard caps so no eviction
interferes, and a positive TTL.) -/
theorem claim7_roundtrip (a : TweetAnalyzerCaches) (handle text : String)
    (r : AnalysisResult) (now : Nat)
    (hTTL : 1 ≤ a.cacheTimeout)
    (hp : a.patternCache.length < 1000)
    (ha : a.authorCache.length < 500) :
    getCachedPatternScore (cacheAnalysisResult a handle text r now) text now = some r ∧
    (handle ≠ "" → JsRat.le ⟨8, 10⟩ r.confidence →
      getCachedAuthorScore (cacheAnalysisResult a handle text r now) handle now =
        some { score := r.score, isSignal := r.isSignal, category := r.category,
               reason := "Cached from: " ++ r.reason,
               confidence := JsRat.mul r.confidence ⟨9, 10⟩ }) := by
  obtain ⟨hpc, hct⟩ := cacheAuthorStage_pattern a handle r now
  constructor
  · unfold cacheAnalysisResult getCachedPatternScore
    dsimp only
    have hlen : ¬ 1000 <
        (mapSet (cacheAuthorStage a handle r now).patternCache (hashContent text) ⟨r, now⟩).length := by
      rw [hpc]
      simp only [mapSet, List.length_cons]
      have := List.length_filter_le (fun p => decide (p.1 ≠ hashContent text)) a.patternCache
      omega
    rw [if_neg hlen, mapGet_set]
    dsimp only
    rw [if_pos (show now - now < (cacheAuthorStage a handle r now).cacheTimeout by
      rw [hct]; omega)]
  · intro h1 h2
    unfold cacheAnalysisResult getCachedAuthorScore
    dsimp only
    unfold cacheAuthorStage
    rw [if_pos ⟨h1, h2⟩]
    dsimp only
    have hlen : ¬ 500 <
        (mapSet a.authorCache handle
          ⟨{ score := r.score, isSignal := r.isSignal, category := r.category,
             reason := "Cached from: " ++ r.reason,
             confidence := JsRat.mul r.confidence ⟨9, 10⟩ }, now⟩).length := by
      simp only [mapSet, List.length_cons]
      have := List.length_filter_le (fun p => decide (p.1 ≠ handle)) a.authorCache
      omega
    rw [if_neg hlen, mapGet_set]
    dsimp only
    rw [if_pos (show now - now < a.cacheTimeout by omega)]

/-- Witness for C7 (amended): concrete round trip through fresh caches. -/
theorem claim7_witness :
    getCachedPatternScore
      (cacheAnalysisResult emptyCaches "@sama" "great analysis thread" sampleSignalResult 0)
      "great analysis thread" 0 = some sampleSignalResult ∧
    getCachedAuthorScore
      (cacheAnalysisResult emptyCaches "@sama" "great analysis thread" sampleSignalResult 0)
      "@sama" 0 =
      some { score := sampleSignalResult.score, isSignal := sampleSignalResult.isSignal,
             category := sampleSignalResult.category,
             reason := "Cached from: " ++ sampleSignalResult.reason,
             confidence := JsRat.mul sampleSignalResult.confidence ⟨9, 10⟩ } :=
  ⟨(claim7_roundtrip emptyCaches "@sama" "great analysis thread" sampleSignalResult 0
      (by decide) (by decide) (by decide)).1,
   (claim7_roundtrip emptyCaches "@sama" "great analysis thread" sampleSignalResult 0
      (by decide) (by decide) (by decide)).2 (by decide) (by decide)⟩

/-- The batch pulled by `getNextBatch` is a prefix of High-then-Low. -/
theorem getNextBatch_batch (q : AnalysisQueue) :
    (getNextBatch q).1 = (qTotal q).take q.batchSize := by
  have harg : q.batchSize - (q.highPriorityQueue.take q.batchSize).length
      = q.batchSize - q.highPriorityQueue.length := by
    simp only [List.length_take]
    omega
  unfold getNextBatch qTotal
  dsimp only
  rw [harg, List.take_append_eq_append_take]

/-- The lanes left behind by `getNextBatch` are the corresponding drop. -/
theorem getNextBatch_rest (q : AnalysisQueue) :
    qTotal (getNextBatch q).2 = (qTotal q).drop q.batchSize := by
  have harg : q.batchSize - (q.highPriorityQueue.take q.batchSize).length
      = q.batchSize - q.highPriorityQueue.length := by
    simp only [List.length_take]
    omega
  unfold getNextBatch qTotal
  dsimp only
  rw [harg, List.drop_append_eq_append_drop]

/-- Pulling a batch touches only the lanes. -/
theorem getNextBatch_fields (q : AnalysisQueue) :
    (getNextBatch q).2.processedTweets = q.processedTweets ∧
    (getNextBatch q).2.pendingTweets = q.pendingTweets ∧
    (getNextBatch q).2.maxQueueSize = q.maxQueueSize ∧
    (getNextBatch q).2.batchSize = q.batchSize :=
  ⟨rfl, rfl, rfl, rfl⟩

/-- Deleting one key then filtering the rest equals filtering the whole. -/
theorem filter_ne_comp (l : List Nat) (t : Nat) (rest : List Nat) :
    (l.filter (fun x => decide (x ≠ t))).filter (fun x => decide (x ∉ rest)) =
      l.filter (fun x => decide (x ∉ t :: rest)) := by
  rw [List.filter_filter]
  apply List.filter_congr
  intro x _
  by_cases h1 : x = t <;> by_cases h2 : x ∈ rest <;> simp [h1, h2]

/-- Full behaviour of the per-item batch loop: every item is attempted in
order (the call log is the batch itself), the items whose classification
succeeded are appended to the processed set, every batch item is deleted from
the pending set, and the lanes and configuration are untouched. -/
theorem processBatch_spec (cl : Nat → Bool) (batch : List Nat) (q : AnalysisQueue) :
    (processBatch q batch cl).2 = batch ∧
    (processBatch q batch cl).1.processedTweets = q.processedTweets ++ batch.filter cl ∧
    (processBatch q batch cl).1.pendingTweets =
      q.pendingTweets.filter (fun x => decide (x ∉ batch)) ∧
    (processBatch q batch cl).1.highPriorityQueue = q.highPriorityQueue ∧
    (processBatch q batch cl).1.lowPriorityQueue = q.lowPriorityQueue ∧
    (processBatch q batch cl).1.maxQueueSize = q.maxQueueSize ∧
    (processBatch q batch cl).1.batchSize = q.batchSize := by
  induction batch generalizing q with
  | nil =>
    refine ⟨rfl, by simp [processBatch], ?_, rfl, rfl, rfl, rfl⟩
    simp [processBatch]
  | cons t rest ih =>
    by_cases hcl : cl t = true
    · have ih' := ih { q with
        processedTweets := q.processedTweets ++ [t],
        pendingTweets := q.pendingTweets.filter (fun x => decide (x ≠ t)) }
      refine ⟨?_, ?_, ?_, ?_, ?_, ?_, ?_⟩ <;>
        simp only [processBatch, hcl, if_true]
      · rw [ih'.1]
      · rw [ih'.2.1]
        rw [List.filter_cons_of_pos hcl, List.append_assoc]
        rfl
      · rw [ih'.2.2.1]
        exact filter_ne_comp q.pendingTweets t rest
      · exact ih'.2.2.2.1
      · exact ih'.2.2.2.2.1
      · exact ih'.2.2.2.2.2.1
      · exact ih'.2.2.2.2.2.2
    · have ih' := ih { q with
        pendingTweets := q.pendingTweets.filter (fun x => decide (x ≠ t)) }
      have hcl' : cl t = false := by
        cases h : cl t
        · rfl
        · exact absurd h hcl
      refine ⟨?_, ?_, ?_, ?_, ?_, ?_, ?_⟩ <;>
        simp only [processBatch, hcl', if_false, Bool.false_eq_true]
      · rw [ih'.1]
      · rw [ih'.2.1]
        rw [List.filter_cons_of_neg (by simp [hcl'])]
      · rw [ih'.2.2.1]
        exact filter_ne_comp q.pendingTweets t rest
      · exact ih'.2.2.2.1
      · exact ih'.2.2.2.2.1
      · exact ih'.2.2.2.2.2.1
      · exact ih'.2.2.2.2.2.2

/-- C6: every drain batch has at most `batchSize` items and is the
High-then-Low prefix: when the High lane has `batchSize` or more entries the
batch is drawn from the High lane alone, and otherwise the whole High lane
comes first (exhaustively, in submission order) followed by Low-lane entries
only in the remaining space. -/
theorem claim6_batch_order (q : AnalysisQueue) :
    (getNextBatch q).1.length ≤ q.batchSize ∧
    (getNextBatch q).1 = (qTotal q).take q.batchSize ∧
    (q.batchSize ≤ q.highPriorityQueue.length →
      (getNextBatch q).1 = q.highPriorityQueue.take q.batchSize) ∧
    (q.highPriorityQueue.length < q.batchSize →
      (getNextBatch q).1 = q.highPriorityQueue ++
        q.lowPriorityQueue.take (q.batchSize - q.highPriorityQueue.length)) := by
  refine ⟨?_, getNextBatch_batch q, ?_, ?_⟩
  · rw [getNextBatch_batch]
    simp only [List.length_take]
    omega
  · intro h
    rw [getNextBatch_batch]
    unfold qTotal
    rw [List.take_append_eq_append_take]
    have : q.batchSize - q.highPriorityQueue.length = 0 := by omega
    rw [this]
    simp
  · intro h
    rw [getNextBatch_batch]
    unfold qTotal
    rw [List.take_append_eq_append_take]
    rw [List.take_of_length_le (by omega)]

/-- Witness for C6 at a concrete scheduler: High lane `[1]`, Low lane
`[2, 3]`, batch size 2 gives the batch `[1, 2]`. -/
theorem claim6_witness :
    (getNextBatch ⟨[1], [2, 3], [], [1, 2, 3], 100, 2⟩).1 = [1] ++ [2, 3].take 1 ∧
    (getNextBatch ⟨[9, 8, 7], [2], [], [], 100, 2⟩).1 = [9, 8, 7].take 2 :=
  ⟨(claim6_batch_order ⟨[1], [2, 3], [], [1, 2, 3], 100, 2⟩).2.2.2 (by decide),
   (claim6_batch_order ⟨[9, 8, 7], [2], [], [], 100, 2⟩).2.2.1 (by decide)⟩

/-- Counterexample to C3: handles 0 and 1 are queued; classifying handle 0
throws.  The batch continues (both are attempted, log `[0, 1]`), but handle 0
is not marked completed — it is simply removed from pending — so resubmitting
it is accepted and a later drain classifies it a second time this session. -/
theorem claim3_counterexample :
    (processNextBatch twoItemQueue failFirstClassify).2 = [0, 1] ∧
    afterFailRun.processedTweets = [1] ∧
    0 ∉ afterFailRun.processedTweets ∧
    0 ∉ afterFailRun.pendingTweets ∧
    (addTweet afterFailRun 0 false).1.lowPriorityQueue = [0] ∧
    (processNextBatch (addTweet afterFailRun 0 false).1 failFirstClassify).2 = [0] := by
  refine ⟨by decide, by decide, by decide, by decide, by decide, by decide⟩

/-- C3 (amended): a per-item classification error inside a drain batch is
caught and the remaining items of the batch are still processed (the call log
is the whole batch); the failing item is deleted from the pending set but is
not added to the processed set, so the same handle can be submitted and
processed again later in the session. -/
theorem claim3_error_handling (q : AnalysisQueue) (batch : List Nat) (cl : Nat → Bool) :
    (processBatch q batch cl).2 = batch ∧
    (processBatch q batch cl).1.processedTweets = q.processedTweets ++ batch.filter cl ∧
    (processBatch q batch cl).1.pendingTweets =
      q.pendingTweets.filter (fun x => decide (x ∉ batch)) :=
  ⟨(processBatch_spec cl batch q).1, (processBatch_spec cl batch q).2.1,
   (processBatch_spec cl batch q).2.2.1⟩

/-- Deleting two key sets in sequence equals deleting their union. -/
theorem filter_not_mem_append (l l1 l2 : List Nat) :
    (l.filter (fun x => decide (x ∉ l1))).filter (fun x => decide (x ∉ l2)) =
      l.filter (fun x => decide (x ∉ l1 ++ l2)) := by
  rw [List.filter_filter]
  apply List.filter_congr
  intro x _
  by_cases h1 : x ∈ l1 <;> by_cases h2 : x ∈ l2 <;> simp [h1, h2]

/-- Draining with enough fuel classifies exactly the queued handles in
High-then-Low order, empties both lanes, appends the successfully classified
handles to the processed set and removes all drained handles from pending. -/
theorem drainAll_spec (cl : Nat → Bool) :
    ∀ (fuel : Nat) (q : AnalysisQueue), 1 ≤ q.batchSize → (qTotal q).length ≤ fuel →
    (drainAll fuel q cl).2 = qTotal q ∧
    (drainAll fuel q cl).1.highPriorityQueue = [] ∧
    (drainAll fuel q cl).1.lowPriorityQueue = [] ∧
    (drainAll fuel q cl).1.processedTweets = q.processedTweets ++ (qTotal q).filter cl ∧
    (drainAll fuel q cl).1.pendingTweets =
      q.pendingTweets.filter (fun x => decide (x ∉ qTotal q)) := by
  intro fuel
  induction fuel with
  | zero =>
    intro q _ hlen
    have h0 : qTotal q = [] := List.eq_nil_of_length_eq_zero (by omega)
    have hh := List.append_eq_nil.mp h0
    exact ⟨h0.symm, hh.1, hh.2, by simp [drainAll, h0], by simp [drainAll, h0]⟩
  | succ fuel ih =>
    intro q hB hlen
    by_cases h0 : qTotal q = []
    · have hh := List.append_eq_nil.mp h0
      have hbatch : (getNextBatch q).1 = [] := by
        rw [getNextBatch_batch, h0, List.take_nil]
      refine ⟨?_, ?_, ?_, ?_, ?_⟩ <;> simp only [drainAll, hbatch, List.isEmpty_nil, if_true]
      · exact h0.symm
      · exact hh.1
      · exact hh.2
      · simp [h0]
      · simp [h0]
    · have hbatch := getNextBatch_batch q
      have hne : (getNextBatch q).1 ≠ [] := by
        rw [hbatch]
        intro hEq
        rcases List.take_eq_nil_iff.mp hEq with h | h
        · omega
        · exact h0 h
      have hnee : (getNextBatch q).1.isEmpty = false := by
        cases hhh : (getNextBatch q).1 with
        | nil => exact absurd hhh hne
        | cons a l => rfl
      have hrest := getNextBatch_rest q
      obtain ⟨hgp, hgpen, hgm, hgb⟩ := getNextBatch_fields q
      have hps := processBatch_spec cl (getNextBatch q).1 (getNextBatch q).2
      have hq1 : qTotal (processBatch (getNextBatch q).2 (getNextBatch q).1 cl).1
          = (qTotal q).drop q.batchSize := by
        unfold qTotal
        rw [hps.2.2.2.1, hps.2.2.2.2.1]
        rw [← qTotal, hrest]
        rfl
      have hb1 : (processBatch (getNextBatch q).2 (getNextBatch q).1 cl).1.batchSize
          = q.batchSize := by rw [hps.2.2.2.2.2.2, hgb]
      have hlen1 : (qTotal (processBatch (getNextBatch q).2 (getNextBatch q).1 cl).1).length
          ≤ fuel := by
        rw [hq1, List.length_drop]
        have : 1 ≤ (qTotal q).length := by
          cases hq : qTotal q with
          | nil => exact absurd hq h0
          | cons a l => simp
        omega
      have ih' := ih (processBatch (getNextBatch q).2 (getNextBatch q).1 cl).1
        (by omega) hlen1
      simp only [drainAll, hnee, Bool.false_eq_true, if_false]
      refine ⟨?_, ?_, ?_, ?_, ?_⟩
      · rw [hps.1, ih'.1, hq1, hbatch, List.take_append_drop]
      · exact ih'.2.1
      · exact ih'.2.2.1
      · rw [ih'.2.2.2.1, hps.2.1, hq1, hgp, hbatch]
        rw [List.append_assoc, ← List.filter_append, List.take_append_drop]
      · rw [ih'.2.2.2.2, hps.2.2.1, hq1, hgpen, hbatch]
        rw [filter_not_mem_append, List.take_append_drop]

/-- Trimming touches only the Low lane and the pending set. -/
theorem trim_fields (q : AnalysisQueue) :
    (trimLowPriorityQueue q).1.highPriorityQueue = q.highPriorityQueue ∧
    (trimLowPriorityQueue q).1.processedTweets = q.processedTweets ∧
    (trimLowPriorityQueue q).1.maxQueueSize = q.maxQueueSize ∧
    (trimLowPriorityQueue q).1.batchSize = q.batchSize := by
  unfold trimLowPriorityQueue
  split <;> exact ⟨rfl, rfl, rfl, rfl⟩

/-- Trimming conserves Low-lane occurrences: kept plus dropped. -/
theorem trim_count (q : AnalysisQueue) (id : Nat) :
    (trimLowPriorityQueue q).1.lowPriorityQueue.count id +
      (trimLowPriorityQueue q).2.count id = q.lowPriorityQueue.count id := by
  unfold trimLowPriorityQueue
  split
  · dsimp only
    conv_rhs => rw [← List.take_append_drop
      (q.lowPriorityQueue.length - q.maxQueueSize) q.lowPriorityQueue]
    rw [List.count_append]
    omega
  · simp

/-- A handle absent from pending stays absent after a trim. -/
theorem trim_pending_not_mem (q : AnalysisQueue) (id : Nat)
    (h : id ∉ q.pendingTweets) : id ∉ (trimLowPriorityQueue q).1.pendingTweets := by
  unfold trimLowPriorityQueue
  split
  · dsimp only
    intro hmem
    exact h (List.mem_of_mem_filter hmem)
  · exact h

/-- Submitting a different handle conserves occurrences of this one across
lanes and drops. -/
theorem addTweet_balance (q : AnalysisQueue) (j : Nat) (high : Bool) (id : Nat)
    (hne : j ≠ id) :
    (qTotal (addTweet q j high).1).count id + ((addTweet q j high).2).count id
      = (qTotal q).count id := by
  unfold addTweet
  split
  · simp
  · split
    · simp [qTotal, List.count_append, List.count_cons, hne]
    · have hc := trim_count { q with
        pendingTweets := q.pendingTweets ++ [j],
        lowPriorityQueue := q.lowPriorityQueue ++ [j] } id
      have hf := trim_fields { q with
        pendingTweets := q.pendingTweets ++ [j],
        lowPriorityQueue := q.lowPriorityQueue ++ [j] }
      dsimp only at hc hf
      unfold qTotal
      rw [hf.1]
      rw [List.count_append, List.count_append]
      have hj : (q.lowPriorityQueue ++ [j]).count id = q.lowPriorityQueue.count id := by
        simp [List.count_append, List.count_cons, hne]
      rw [hj] at hc
      omega

/-- Submitting a fresh handle places exactly one occurrence in the lanes or
drops (it can be dropped immediately when `maxQueueSize` is 0). -/
theorem addTweet_self (q : AnalysisQueue) (id : Nat) (high : Bool)
    (h : freshId q id) :
    (qTotal (addTweet q id high).1).count id + ((addTweet q id high).2).count id
      = 1 := by
  have hq0 := h.2.2
  rw [qTotal, List.count_append] at hq0
  unfold addTweet
  rw [if_neg (by rintro (h1 | h2); exacts [h.2.1 h1, h.1 h2])]
  split
  · simp [qTotal, List.count_append, List.count_cons]
    omega
  · have hc := trim_count { q with
      pendingTweets := q.pendingTweets ++ [id],
      lowPriorityQueue := q.lowPriorityQueue ++ [id] } id
    have hf := trim_fields { q with
      pendingTweets := q.pendingTweets ++ [id],
      lowPriorityQueue := q.lowPriorityQueue ++ [id] }
    dsimp only at hc hf
    unfold qTotal
    rw [hf.1]
    rw [List.count_append]
    have hid : (q.lowPriorityQueue ++ [id]).count id
        = q.lowPriorityQueue.count id + 1 := by
      simp [List.count_append, List.count_cons]
    rw [hid] at hc
    omega

/-- Submitting never changes the processed set. -/
theorem addTweet_processed (q : AnalysisQueue) (j : Nat) (high : Bool) :
    (addTweet q j high).1.processedTweets = q.processedTweets := by
  unfold addTweet
  split
  · rfl
  · split
    · rfl
    · exact (trim_fields _).2.1

/-- Submitting preserves the configuration. -/
theorem addTweet_config (q : AnalysisQueue) (j : Nat) (high : Bool) :
    (addTweet q j high).1.maxQueueSize = q.maxQueueSize ∧
    (addTweet q j high).1.batchSize = q.batchSize := by
  unfold addTweet
  split
  · exact ⟨rfl, rfl⟩
  · split
    · exact ⟨rfl, rfl⟩
    · exact ⟨(trim_fields _).2.2.1, (trim_fields _).2.2.2⟩

/-- A handle absent from pending stays absent when another one is submitted. -/
theorem addTweet_pending_not_mem (q : AnalysisQueue) (j : Nat) (high : Bool)
    (id : Nat) (hne : j ≠ id) (h : id ∉ q.pendingTweets) :
    id ∉ (addTweet q j high).1.pendingTweets := by
  unfold addTweet
  split
  · exact h
  · have hnp : id ∉ q.pendingTweets ++ [j] := by
      simp [List.mem_append, h]
      omega
    split
    · exact hnp
    · exact trim_pending_not_mem _ id hnp

/-- Escalation moves a handle between lanes without changing total counts. -/
theorem updatePriority_count (q : AnalysisQueue) (k id : Nat) :
    (qTotal (updatePriority q k)).count id = (qTotal q).count id := by
  unfold updatePriority
  split
  · rename_i hcond
    unfold qTotal
    dsimp only
    rw [List.count_append, List.count_append, List.count_append]
    by_cases hk : k = id
    · subst hk
      have h1 : (q.lowPriorityQueue.erase k).count k
          = q.lowPriorityQueue.count k - 1 := List.count_erase_self k q.lowPriorityQueue
      have h2 : 0 < q.lowPriorityQueue.count k := List.count_pos_iff.mpr hcond.2
      have h3 : ([k] : List Nat).count k = 1 := by simp
      omega
    · rw [List.count_erase_of_ne (fun hx => hk hx.symm)]
      have h3 : ([k] : List Nat).count id = 0 := by
        refine List.count_eq_zero.mpr ?_
        simp
        exact fun hx => hk hx.symm
      omega
  · rfl

/-- Escalation touches only the lanes. -/
theorem updatePriority_fields (q : AnalysisQueue) (k : Nat) :
    (updatePriority q k).pendingTweets = q.pendingTweets ∧
    (updatePriority q k).processedTweets = q.processedTweets ∧
    (updatePriority q k).maxQueueSize = q.maxQueueSize ∧
    (updatePriority q k).batchSize = q.batchSize := by
  unfold updatePriority
  split <;> exact ⟨rfl, rfl, rfl, rfl⟩

/-- One drain leaves the drop of the combined lanes. -/
theorem processNextBatch_queues (cl : Nat → Bool) (q : AnalysisQueue) :
    qTotal (processNextBatch q cl).1 = (qTotal q).drop q.batchSize := by
  unfold processNextBatch
  have hps := processBatch_spec cl (getNextBatch q).1 (getNextBatch q).2
  unfold qTotal
  rw [hps.2.2.2.1, hps.2.2.2.2.1]
  rw [← qTotal, getNextBatch_rest]
  rfl

/-- One drain conserves occurrences: what leaves the lanes enters the log. -/
theorem processNextBatch_balance (cl : Nat → Bool) (q : AnalysisQueue) (id : Nat) :
    (qTotal (processNextBatch q cl).1).count id + ((processNextBatch q cl).2).count id
      = (qTotal q).count id := by
  have hq := processNextBatch_queues cl q
  have hlog : (processNextBatch q cl).2 = (qTotal q).take q.batchSize := by
    unfold processNextBatch
    rw [(processBatch_spec cl (getNextBatch q).1 (getNextBatch q).2).1, getNextBatch_batch]
  rw [hq, hlog]
  conv_rhs => rw [← List.take_append_drop q.batchSize (qTotal q)]
  rw [List.count_append]
  omega

/-- One drain preserves the batch size. -/
theorem processNextBatch_config (cl : Nat → Bool) (q : AnalysisQueue) :
    (processNextBatch q cl).1.maxQueueSize = q.maxQueueSize ∧
    (processNextBatch q cl).1.batchSize = q.batchSize := by
  unfold processNextBatch
  have hps := processBatch_spec cl (getNextBatch q).1 (getNextBatch q).2
  exact ⟨hps.2.2.2.2.2.1, hps.2.2.2.2.2.2⟩

/-- A handle the scheduler has never seen stays unseen under a submit of a
different handle, an escalation or a drain, and contributes nothing to the
call and drop logs of that event. -/
theorem stepOp_fresh (cl : Nat → Bool) (q : AnalysisQueue) (op : QueueOp) (id : Nat)
    (hop : ∀ j high, op = .submit j high → j ≠ id) (h : freshId q id) :
    freshId (stepOp cl q op).1 id ∧ ((stepOp cl q op).2.1).count id = 0 ∧
      ((stepOp cl q op).2.2).count id = 0 := by
  cases op with
  | submit j high =>
    have hne : j ≠ id := hop j high rfl
    have hb := addTweet_balance q j high id hne
    rw [h.2.2] at hb
    have hq0 : (qTotal (addTweet q j high).1).count id = 0 := by omega
    have hd0 : ((addTweet q j high).2).count id = 0 := by omega
    exact ⟨⟨addTweet_pending_not_mem q j high id hne h.1,
           (addTweet_processed q j high) ▸ h.2.1, hq0⟩, rfl, hd0⟩
  | escalate k =>
    have hf := updatePriority_fields q k
    exact ⟨⟨hf.1 ▸ h.1, hf.2.1 ▸ h.2.1, (updatePriority_count q k id).trans h.2.2⟩,
      rfl, rfl⟩
  | drain =>
    have hb := processNextBatch_balance cl q id
    rw [h.2.2] at hb
    have hq0 : (qTotal (processNextBatch q cl).1).count id = 0 := by omega
    have hc0 : ((processNextBatch q cl).2).count id = 0 := by omega
    have hmem : id ∉ qTotal q := List.count_eq_zero.mp h.2.2
    have hps := processBatch_spec cl (getNextBatch q).1 (getNextBatch q).2
    refine ⟨⟨?_, ?_, hq0⟩, hc0, rfl⟩
    · show id ∉ (processNextBatch q cl).1.pendingTweets
      unfold processNextBatch
      rw [hps.2.2.1]
      intro hmem'
      exact h.1 (List.mem_of_mem_filter hmem')
    · show id ∉ (processNextBatch q cl).1.processedTweets
      unfold processNextBatch
      rw [hps.2.1]
      intro hmem'
      rcases List.mem_append.mp hmem' with h1 | h1
      · exact h.2.1 h1
      · have hsub : (getNextBatch q).1 ⊆ qTotal q := by
          rw [getNextBatch_batch]
          exact List.take_subset _ _
        exact hmem (hsub (List.mem_of_mem_filter h1))

/-- Any event conserves occurrences of a handle it does not submit. -/
theorem stepOp_balance (cl : Nat → Bool) (q : AnalysisQueue) (op : QueueOp) (id : Nat)
    (hop : ∀ j high, op = .submit j high → j ≠ id) :
    (qTotal (stepOp cl q op).1).count id + ((stepOp cl q op).2.1).count id +
      ((stepOp cl q op).2.2).count id = (qTotal q).count id := by
  cases op with
  | submit j high =>
    have hb := addTweet_balance q j high id (hop j high rfl)
    simp only [stepOp, List.count_nil]
    omega
  | escalate k =>
    simp only [stepOp, List.count_nil]
    have := updatePriority_count q k id
    omega
  | drain =>
    have hb := processNextBatch_balance cl q id
    simp only [stepOp, List.count_nil]
    omega

/-- Unfolding of `countSubmits` over a cons. -/
theorem countSubmits_cons (id : Nat) (op : QueueOp) (rest : List QueueOp) :
    countSubmits id (op :: rest) =
      countSubmits id rest + if isSubmitOf id op then 1 else 0 := by
  simp [countSubmits, List.countP_cons]

/-- A non-submission of this handle, as a disequality. -/
theorem isSubmitOf_false (id : Nat) (op : QueueOp) (h : isSubmitOf id op = false) :
    ∀ j high, op = .submit j high → j ≠ id := by
  intro j high hop
  subst hop
  exact of_decide_eq_false h

/-- An event sequence that never submits this handle conserves its
occurrences across lanes, call log and drop log. -/
theorem runOps_balance (cl : Nat → Bool) :
    ∀ (ops : List QueueOp) (q : AnalysisQueue) (id : Nat), countSubmits id ops = 0 →
    (qTotal (runOps cl q ops).1).count id + ((runOps cl q ops).2.1).count id +
      ((runOps cl q ops).2.2).count id = (qTotal q).count id := by
  intro ops
  induction ops with
  | nil =>
    intro q id _
    simp [runOps]
  | cons op rest ih =>
    intro q id h
    rw [countSubmits_cons] at h
    have hb0 : isSubmitOf id op = false := by
      cases hx : isSubmitOf id op
      · rfl
      · rw [hx] at h
        simp at h
    have hrest : countSubmits id rest = 0 := by
      rw [hb0] at h
      simpa using h
    have hb := stepOp_balance cl q op id (isSubmitOf_false id op hb0)
    have ihr := ih (stepOp cl q op).1 id hrest
    simp only [runOps]
    rw [List.count_append, List.count_append]
    omega

/-- Starting from a state in which the handle is unseen, an event sequence
submitting it at most once distributes exactly `countSubmits` occurrences
over the final lanes, the call log and the drop log. -/
theorem runOps_total (cl : Nat → Bool) :
    ∀ (ops : List QueueOp) (q : AnalysisQueue) (id : Nat), countSubmits id ops ≤ 1 →
    freshId q id →
    (qTotal (runOps cl q ops).1).count id + ((runOps cl q ops).2.1).count id +
      ((runOps cl q ops).2.2).count id = countSubmits id ops := by
  intro ops
  induction ops with
  | nil =>
    intro q id _ hf
    simp [runOps, countSubmits, hf.2.2]
  | cons op rest ih =>
    intro q id h hf
    rw [countSubmits_cons] at h ⊢
    by_cases hb0 : isSubmitOf id op = true
    · rw [if_pos hb0] at h ⊢
      cases op with
      | escalate k => exact absurd hb0 (by simp [isSubmitOf])
      | drain => exact absurd hb0 (by simp [isSubmitOf])
      | submit j high =>
        have hj : j = id := of_decide_eq_true hb0
        subst hj
        have hrest : countSubmits j rest = 0 := by omega
        have hself := addTweet_self q j high hf
        have hbal := runOps_balance cl rest (stepOp cl q (.submit j high)).1 j hrest
        simp only [runOps, stepOp] at hbal ⊢
        rw [List.count_append, List.count_append]
        simp only [List.count_nil]
        omega
    · have hb0' : isSubmitOf id op = false := by
        cases hx : isSubmitOf id op
        · rfl
        · exact absurd hx hb0
      rw [if_neg hb0] at h ⊢
      have hfr := stepOp_fresh cl q op id (isSubmitOf_false id op hb0') hf
      have ihr := ih (stepOp cl q op).1 id (by omega) hfr.1
      simp only [runOps]
      rw [List.count_append, List.count_append]
      omega

set_option maxRecDepth 4000 in
/-- Counterexample to C4: in the overflow scenario (101 Low submissions into
the default scheduler, then a full drain), handle 0 is submitted exactly once
yet its classification callback never fires — the drop caused by queue
overflow silently loses the callback, refuting "no missing callback even
under queue overflow". -/
theorem claim4_counterexample :
    countSubmits 0 overflowOps = 1 ∧
    ((runOps (fun _ => true) emptyQueue overflowOps).2.1).count 0 = 0 ∧
    (runOps (fun _ => true) emptyQueue overflowOps).1.highPriorityQueue = [] ∧
    (runOps (fun _ => true) emptyQueue overflowOps).1.lowPriorityQueue = [] := by
  refine ⟨by decide, by decide, by decide, by decide⟩

/-- C4 (amended): submitting is a no-op for a handle already pending or
processed; a handle submitted at most once is classified at most once; and a
handle submitted exactly once whose classification callback never fires after
the queues have fully drained must have been dropped by Low-lane overflow —
equivalently, once submitted exactly once and never overflow-dropped, the
callback fires exactly once. -/
theorem claim4_at_most_once :
    (∀ (cl : Nat → Bool) (ops : List QueueOp) (id : Nat), countSubmits id ops ≤ 1 →
      ((runOps cl emptyQueue ops).2.1).count id ≤ 1) ∧
    (∀ (cl : Nat → Bool) (ops : List QueueOp) (id : Nat), countSubmits id ops = 1 →
      ((runOps cl emptyQueue ops).2.2).count id = 0 →
      (runOps cl emptyQueue ops).1.highPriorityQueue = [] →
      (runOps cl emptyQueue ops).1.lowPriorityQueue = [] →
      ((runOps cl emptyQueue ops).2.1).count id = 1) ∧
    (∀ (q : AnalysisQueue) (id : Nat) (high : Bool),
      id ∈ q.pendingTweets ∨ id ∈ q.processedTweets → addTweet q id high = (q, [])) := by
  have hfresh : ∀ id : Nat, freshId emptyQueue id := fun id =>
    ⟨by simp [emptyQueue], by simp [emptyQueue], by simp [emptyQueue, qTotal]⟩
  refine ⟨?_, ?_, ?_⟩
  · intro cl ops id h
    have ht := runOps_total cl ops emptyQueue id h (hfresh id)
    omega
  · intro cl ops id h hd hh hl
    have ht := runOps_total cl ops emptyQueue id (by omega) (hfresh id)
    have hq0 : (qTotal (runOps cl emptyQueue ops).1).count id = 0 := by
      unfold qTotal
      rw [hh, hl]
      rfl
    omega
  · intro q id high h
    unfold addTweet
    rw [if_pos (Or.elim h (fun h1 => Or.inr h1) (fun h2 => Or.inl h2))]

/-- Witness for C4 (amended): handle 7 submitted once and drained is
classified exactly once. -/
theorem claim4_witness :
    countSubmits 7 [QueueOp.submit 7 true, QueueOp.drain] = 1 ∧
    ((runOps (fun _ => true) emptyQueue [QueueOp.submit 7 true, QueueOp.drain]).2.1).count 7 = 1 :=
  ⟨by decide,
   claim4_at_most_once.2.1 (fun _ => true) [QueueOp.submit 7 true, QueueOp.drain] 7
     (by decide) (by decide) (by decide) (by decide)⟩

/-- Running a concatenation of event sequences composes states and logs. -/
theorem runOps_append (cl : Nat → Bool) (ops1 ops2 : List QueueOp) :
    ∀ q : AnalysisQueue,
    runOps cl q (ops1 ++ ops2) =
      ((runOps cl (runOps cl q ops1).1 ops2).1,
       (runOps cl q ops1).2.1 ++ (runOps cl (runOps cl q ops1).1 ops2).2.1,
       (runOps cl q ops1).2.2 ++ (runOps cl (runOps cl q ops1).1 ops2).2.2) := by
  induction ops1 with
  | nil => intro q; simp [runOps]
  | cons op rest ih =>
    intro q
    simp only [List.cons_append, List.append_eq, runOps, ih (stepOp cl q op).1,
      List.append_assoc]

/-- On a duplicate-free list, keeping the elements outside its `k`-prefix is
dropping the prefix. -/
theorem filter_not_mem_take (l : List Nat) (k : Nat) (h : l.Nodup) :
    l.filter (fun a => decide (a ∉ l.take k)) = l.drop k := by
  have hsplit : l.filter (fun a => decide (a ∉ l.take k))
      = (l.take k ++ l.drop k).filter (fun a => decide (a ∉ l.take k)) := by
    rw [List.take_append_drop]
  rw [hsplit, List.filter_append]
  have h1 : (l.take k).filter (fun a => decide (a ∉ l.take k)) = [] :=
    List.filter_eq_nil_iff.mpr (fun a ha => by simp [ha])
  have h2 : (l.drop k).filter (fun a => decide (a ∉ l.take k)) = l.drop k :=
    List.filter_eq_self.mpr (fun a ha => by
      simp only [decide_eq_true_eq]
      exact fun hmem => List.disjoint_take_drop h le_rfl hmem ha)
  rw [h1, h2, List.nil_append]

/-- Submitting one fresh handle Low into a Low-only scheduler holding the
last-`M` window of previously submitted handles keeps the window shape: the
lane and pending set advance to the window of the extended list, and the
handles dropped by the trim are exactly the segment of the extended list
between the old and the new window start. -/
theorem addTweet_low_step (M B : Nat) (ids : List Nat) (x : Nat)
    (h : (ids ++ [x]).Nodup) :
    addTweet (lowOnlyQueue M B (ids.drop (ids.length - M))) x false =
      (lowOnlyQueue M B ((ids ++ [x]).drop ((ids ++ [x]).length - M)),
       ((ids ++ [x]).take ((ids ++ [x]).length - M)).drop (ids.length - M)) := by
  have hxids : x ∉ ids := by
    intro hx
    rcases List.nodup_append.mp h with ⟨_, _, hdisj⟩
    exact hdisj hx (by simp)
  have hndids : ids.Nodup := h.of_append_left
  have hw : ids.drop (ids.length - M) ⊆ ids := List.drop_subset _ _
  have hxw : x ∉ ids.drop (ids.length - M) := fun hx => hxids (hw hx)
  have hndw : (ids.drop (ids.length - M)).Nodup := hndids.sublist (List.drop_sublist _ _)
  have hndwx : (ids.drop (ids.length - M) ++ [x]).Nodup := by
    rw [List.nodup_append]
    exact ⟨hndw, by simp, fun a ha hb => by
      simp at hb
      subst hb
      exact hxw ha⟩
  have hwlen : (ids.drop (ids.length - M)).length = min M ids.length := by
    rw [List.length_drop]
    omega
  unfold addTweet
  rw [if_neg (by
    rintro (h1 | h2)
    · simp [lowOnlyQueue] at h1
    · exact hxw h2)]
  rw [if_neg (by simp)]
  unfold trimLowPriorityQueue
  simp only [lowOnlyQueue]
  by_cases hM : M ≤ ids.length
  · -- the lane is full: one handle is dropped from the front
    have hcond : M < (ids.drop (ids.length - M) ++ [x]).length := by
      rw [List.length_append, hwlen]
      simp
      omega
    rw [if_pos hcond]
    have hk : (ids.drop (ids.length - M) ++ [x]).length - M = 1 := by
      rw [List.length_append, hwlen]
      simp
      omega
    have happ : ids.drop (ids.length - M) ++ [x] = (ids ++ [x]).drop (ids.length - M) := by
      rw [List.drop_append_of_le_length (by omega)]
    have hkeep : (ids.drop (ids.length - M) ++ [x]).drop 1
        = (ids ++ [x]).drop ((ids ++ [x]).length - M) := by
      rw [happ, List.drop_drop]
      congr 1
      simp
      omega
    have hdropped : (ids.drop (ids.length - M) ++ [x]).take 1
        = ((ids ++ [x]).take ((ids ++ [x]).length - M)).drop (ids.length - M) := by
      rw [happ]
      have harg : (ids ++ [x]).length - M = (ids.length - M) + 1 := by
        simp
        omega
      rw [harg, List.drop_take]
      congr 1
      omega
    simp only [hk]
    rw [filter_not_mem_take _ 1 hndwx, hkeep, hdropped]
  · -- the lane still has room: nothing is dropped
    have hcond : ¬ M < (ids.drop (ids.length - M) ++ [x]).length := by
      rw [List.length_append, hwlen]
      simp
      omega
    rw [if_neg hcond]
    have h0 : ids.length - M = 0 := by omega
    have h0' : (ids ++ [x]).length - M = 0 := by
      simp
      omega
    simp only [h0, h0', List.drop_zero, List.take_zero, List.drop_nil]

/-- Submitting a duplicate-free list of fresh handles Low into an empty
scheduler retains exactly the last `maxQueueSize` of them, in order, in both
the Low lane and the pending set, never calls the analyzer, and drops exactly
the oldest excess handles, in order. -/
theorem submitAll_low (cl : Nat → Bool) (M B : Nat) (ids : List Nat) (h : ids.Nodup) :
    runOps cl (lowOnlyQueue M B []) (ids.map (fun i => QueueOp.submit i false)) =
      (lowOnlyQueue M B (ids.drop (ids.length - M)), [],
       ids.take (ids.length - M)) := by
  induction ids using List.reverseRecOn with
  | nil => simp [runOps, lowOnlyQueue]
  | append_singleton ids x ih =>
    have hndids : ids.Nodup := h.of_append_left
    rw [List.map_append, runOps_append, ih hndids]
    have hstep := addTweet_low_step M B ids x h
    have hsingle :
        runOps cl (lowOnlyQueue M B (ids.drop (ids.length - M)))
          ([x].map (fun i => QueueOp.submit i false)) =
        ((addTweet (lowOnlyQueue M B (ids.drop (ids.length - M))) x false).1,
         [],
         (addTweet (lowOnlyQueue M B (ids.drop (ids.length - M))) x false).2) := by
      simp [runOps, stepOp]
    rw [hsingle, hstep]
    have hdrops : ids.take (ids.length - M) ++
        ((ids ++ [x]).take ((ids ++ [x]).length - M)).drop (ids.length - M) =
        (ids ++ [x]).take ((ids ++ [x]).length - M) := by
      have hpre : ids.take (ids.length - M)
          = ((ids ++ [x]).take ((ids ++ [x]).length - M)).take (ids.length - M) := by
        rw [List.take_take]
        have hmin : min (ids.length - M) ((ids ++ [x]).length - M) = ids.length - M := by
          simp
          omega
        rw [hmin, List.take_append_of_le_length (by omega)]
      rw [hpre, List.take_append_drop]
    simp only [List.nil_append]
    rw [hdrops]

/-- C5: submitting `maxQueueSize + k` distinct Low-priority handles into an
empty scheduler retains exactly the `maxQueueSize` newest in the Low lane (in
submission order), drops exactly the `k` oldest, and un-marks the dropped
handles as submitted (they leave the pending set and were never processed);
resubmitting a dropped handle is accepted, and a full drain then classifies
it exactly once — no duplicate processing. -/
theorem claim5_overflow (M B k : Nat) (hM : 1 ≤ M) (hB : 1 ≤ B) :
    (runOps (fun _ => true) (lowOnlyQueue M B [])
        ((List.range (M + k)).map (fun i => QueueOp.submit i false))).1.lowPriorityQueue
      = (List.range (M + k)).drop k ∧
    (runOps (fun _ => true) (lowOnlyQueue M B [])
        ((List.range (M + k)).map (fun i => QueueOp.submit i false))).1.lowPriorityQueue.length
      = M ∧
    (runOps (fun _ => true) (lowOnlyQueue M B [])
        ((List.range (M + k)).map (fun i => QueueOp.submit i false))).2.2
      = (List.range (M + k)).take k ∧
    (runOps (fun _ => true) (lowOnlyQueue M B [])
        ((List.range (M + k)).map (fun i => QueueOp.submit i false))).1.pendingTweets
      = (List.range (M + k)).drop k ∧
    (∀ d ∈ (List.range (M + k)).take k,
      d ∉ (runOps (fun _ => true) (lowOnlyQueue M B [])
        ((List.range (M + k)).map (fun i => QueueOp.submit i false))).1.pendingTweets ∧
      d ∉ (runOps (fun _ => true) (lowOnlyQueue M B [])
        ((List.range (M + k)).map (fun i => QueueOp.submit i false))).1.processedTweets ∧
      ((drainAll (M + 1)
          (addTweet (runOps (fun _ => true) (lowOnlyQueue M B [])
            ((List.range (M + k)).map (fun i => QueueOp.submit i false))).1 d false).1
          (fun _ => true)).2).count d = 1) := by
  have hids : (List.range (M + k)).Nodup := List.nodup_range _
  have hrun := submitAll_low (fun _ => true) M B (List.range (M + k)) hids
  have hlen : (List.range (M + k)).length = M + k := List.length_range _
  have hdk : (List.range (M + k)).length - M = k := by omega
  rw [hdk] at hrun
  have hwlen : ((List.range (M + k)).drop k).length = M := by
    rw [List.length_drop]
    omega
  refine ⟨by rw [hrun]; rfl, by rw [hrun]; exact hwlen, by rw [hrun], by rw [hrun]; rfl, ?_⟩
  intro d hd
  have hdw : d ∉ (List.range (M + k)).drop k :=
    fun hx => List.disjoint_take_drop hids le_rfl hd hx
  have hndw : ((List.range (M + k)).drop k).Nodup :=
    hids.sublist (List.drop_sublist _ _)
  have hndwd : ((List.range (M + k)).drop k ++ [d]).Nodup := by
    rw [List.nodup_append]
    exact ⟨hndw, by simp, fun a ha hb => by
      simp at hb
      subst hb
      exact hdw ha⟩
  have hw0 : ((List.range (M + k)).drop k).drop
      (((List.range (M + k)).drop k).length - M) = (List.range (M + k)).drop k := by
    rw [hwlen]
    simp
  have hstep := addTweet_low_step M B ((List.range (M + k)).drop k) d hndwd
  rw [hw0] at hstep
  have hlen1 : (((List.range (M + k)).drop k) ++ [d]).length - M = 1 := by
    rw [List.length_append, hwlen]
    simp
  rw [hlen1] at hstep
  refine ⟨by rw [hrun]; exact hdw, by rw [hrun]; simp [lowOnlyQueue], ?_⟩
  rw [hrun, hstep]
  have hq1keep : (((List.range (M + k)).drop k) ++ [d]).drop 1
      = ((List.range (M + k)).drop k).drop 1 ++ [d] := by
    rw [List.drop_append_of_le_length (by omega)]
  have hspec := drainAll_spec (fun _ => true) (M + 1)
    (lowOnlyQueue M B ((((List.range (M + k)).drop k) ++ [d]).drop 1))
    (by simpa [lowOnlyQueue] using hB)
    (by
      simp only [lowOnlyQueue, qTotal, List.nil_append, List.length_drop,
        List.length_append, hwlen]
      simp)
  rw [hspec.1]
  simp only [lowOnlyQueue, qTotal, List.nil_append]
  rw [hq1keep, List.count_append]
  have hd1 : d ∉ ((List.range (M + k)).drop k).drop 1 :=
    fun hx => hdw (List.drop_subset _ _ hx)
  rw [List.count_eq_zero.mpr hd1]
  simp

/-- Witness for C5 at `maxQueueSize = 2`, `batchSize = 1`, `k = 2`: of the
four submissions, handles 2 and 3 are retained and handles 0 and 1 dropped;
resubmitting handle 0 leads to exactly one classification. -/
theorem claim5_witness :
    (runOps (fun _ => true) (lowOnlyQueue 2 1 [])
        ((List.range 4).map (fun i => QueueOp.submit i false))).1.lowPriorityQueue
      = [2, 3] ∧
    ((drainAll 3
        (addTweet (runOps (fun _ => true) (lowOnlyQueue 2 1 [])
          ((List.range 4).map (fun i => QueueOp.submit i false))).1 0 false).1
        (fun _ => true)).2).count 0 = 1 := by
  have h := claim5_overflow 2 1 2 (by decide) (by decide)
  refine ⟨by rw [h.1]; decide, ?_⟩
  have h0 : 0 ∈ (List.range (2 + 2)).take 2 := by decide
  exact (h.2.2.2.2 0 h0).2.2
